import Mathlib

set_option maxRecDepth 8000

/-!
# Verification of the ai-gateway core

A shallow embedding of the request-translation core of the `ai-gateway`
repository (TypeScript), together with proofs about the behaviour of the
embedded functions.  Each definition is translated from a specific source
function; the source file and symbol are named in its doc comment.

Sections:
* JavaScript-style string/option helpers used throughout the source.
* Model-id parsing and the provider registry (`src/core/providers.ts`).
* The canonical stream alphabet and the two SSE framings written by the
  HTTP surface (`src/core/gateway.ts`).
* The Anthropic-messages → SDK-message converter (`src/core/gateway.ts`,
  `convertAnthropicMessages`).
* The cursor-agent subprocess adapter's streaming interception logic
  (`CursorProvider.doStream`).
* OAuth token-refresh expiry arithmetic and device-code polling loops
  (`utils/oauth/openai-codex.ts`, qwen-cli and github-copilot flows).
-/

/-! ## JavaScript-style helpers

The source is TypeScript; these helpers model the JavaScript truthiness
idioms (`x || y`, `if (!x)`) for optional strings, and `String.split` /
`Array.join` on a separator character. -/

/-- JS truthiness of an optional string: `undefined`, `null` and `""` are
falsy, every other string is truthy. -/
def truthy : Option String → Bool
  | none => false
  | some s => !s.isEmpty

/-- JS `a || b` for an optional string `a` and a default `b`. -/
def jsOr (a : Option String) (b : String) : String :=
  match a with
  | none => b
  | some s => if s.isEmpty then b else s

/-- JS `String.prototype.includes(c)` for a single-character needle,
over the character list of the string. -/
def jsIncludes (c : Char) (l : List Char) : Bool :=
  l.any (· = c)

/-- JS `String.prototype.split(sep)` over a character list.  Always returns
a non-empty list of groups; adjacent separators yield empty groups, exactly
like the JavaScript function. -/
def jsSplit (sep : Char) : List Char → List (List Char)
  | [] => [[]]
  | c :: cs =>
    if c = sep then [] :: jsSplit sep cs
    else (c :: (jsSplit sep cs).headD []) :: (jsSplit sep cs).tail

/-- JS `Array.prototype.join('/')` over character-list fragments. -/
def joinSlash : List (List Char) → List Char
  | [] => []
  | [l] => l
  | l :: ls => l ++ '/' :: joinSlash ls

theorem jsSplit_ne_nil (sep : Char) (l : List Char) : jsSplit sep l ≠ [] := by
  cases l with
  | nil => simp [jsSplit]
  | cons c cs => simp only [jsSplit]; split <;> simp

/-- Splitting and re-joining on the same separator is the identity. -/
theorem joinSlash_jsSplit (l : List Char) : joinSlash (jsSplit '/' l) = l := by
  induction l with
  | nil => rfl
  | cons c cs ih =>
    rcases h : jsSplit '/' cs with _ | ⟨g, gs⟩
    · exact absurd h (jsSplit_ne_nil '/' cs)
    · rw [h] at ih
      by_cases hc : c = '/'
      · subst hc
        simp only [jsSplit, if_pos rfl, h, joinSlash]
        cases gs <;> simpa [joinSlash] using ih
      · simp only [jsSplit, if_neg hc, h, List.headD, List.tail]
        cases gs <;> simpa [joinSlash] using ih

/-- The head group of a split contains no separator. -/
theorem jsSplit_head_no_sep (sep : Char) (l : List Char) :
    ∀ g gs, jsSplit sep l = g :: gs → sep ∉ g := by
  induction l with
  | nil => intro g gs h; simp [jsSplit] at h; simp [h.1]
  | cons c cs ih =>
    intro g gs h
    rcases h' : jsSplit sep cs with _ | ⟨g', gs'⟩
    · exact absurd h' (jsSplit_ne_nil sep cs)
    · simp only [jsSplit, h', List.headD, List.tail] at h
      by_cases hc : c = sep
      · rw [if_pos hc] at h
        cases h
        simp
      · rw [if_neg hc] at h
        injection h with h1 h2
        subst h1
        intro hmem
        rcases List.mem_cons.mp hmem with h1 | h2
        · exact hc h1.symm
        · exact ih g' gs' h' h2

/-- If the separator occurs in the list, the split has at least two groups. -/
theorem jsSplit_tail_ne_nil (sep : Char) (l : List Char) (hmem : sep ∈ l) :
    ∀ g gs, jsSplit sep l = g :: gs → gs ≠ [] := by
  induction l with
  | nil => cases hmem
  | cons c cs ih =>
    intro g gs h
    rcases h' : jsSplit sep cs with _ | ⟨g', gs'⟩
    · exact absurd h' (jsSplit_ne_nil sep cs)
    · simp only [jsSplit, h', List.headD, List.tail] at h
      by_cases hc : c = sep
      · rw [if_pos hc] at h; cases h; simp
      · rw [if_neg hc] at h
        injection h with h1 h2
        subst h2
        rcases List.mem_cons.mp hmem with h1 | h2
        · exact absurd h1.symm hc
        · exact ih h2 g' gs' h'

/-! ## Model-id parsing (`src/core/providers.ts`, `getProvider`)

```ts
const [providerBrand, ...modelNameParts] = modelId.split('/');
const modelName = modelNameParts.join('/');
```
-/

/-- Destructuring `const [providerBrand, ...rest] = modelId.split('/')`
followed by `rest.join('/')`.  Returns `(providerBrand, modelName)`. -/
def parseModelId (modelId : String) : String × String :=
  match jsSplit '/' modelId.data with
  | [] => ("", "")
  | g :: gs => (String.mk g, String.mk (joinSlash gs))

/-- **C7.** For every qualified model id containing at least one `/`,
parsing splits only at the first `/`: the provider is the text before the
first `/` (it contains no `/` itself), the model is everything after it,
`provider ++ "/" ++ model` reconstructs the original id, and in particular
`"a/b/c"` yields provider `"a"` and model `"b/c"`. -/
theorem parseModelId_first_slash (s : String) (h : '/' ∈ s.data) :
    (parseModelId s).1 ++ "/" ++ (parseModelId s).2 = s ∧
    '/' ∉ (parseModelId s).1.data ∧
    parseModelId "a/b/c" = ("a", "b/c") := by
  refine ⟨?_, ?_, by decide⟩
  · cases hs : jsSplit '/' s.data with
    | nil => exact absurd hs (jsSplit_ne_nil '/' s.data)
    | cons g gs =>
      have hgs : gs ≠ [] := jsSplit_tail_ne_nil '/' s.data h g gs hs
      have hjoin : joinSlash (g :: gs) = s.data := by
        rw [← hs]; exact joinSlash_jsSplit s.data
      have hgoin : g ++ '/' :: joinSlash gs = s.data := by
        rcases gs with _ | ⟨g', gs'⟩
        · exact absurd rfl hgs
        · simpa [joinSlash] using hjoin
      show String.mk ((parseModelId s).1.data ++ "/".data ++ (parseModelId s).2.data) = s
      simp only [parseModelId, hs]
      cases s with
      | mk data => exact congrArg String.mk (by simpa using hgoin)
  · cases hs : jsSplit '/' s.data with
    | nil => exact absurd hs (jsSplit_ne_nil '/' s.data)
    | cons g gs =>
      simp only [parseModelId, hs]
      exact jsSplit_head_no_sep '/' s.data g gs hs

/-- Witness for `parseModelId_first_slash` at the concrete id `"a/b/c"`. -/
theorem parseModelId_first_slash_witness :
    '/' ∈ ("a/b/c" : String).data ∧
    (("a/b/c" : String) |> fun s =>
      (parseModelId s).1 ++ "/" ++ (parseModelId s).2 = s ∧
      '/' ∉ (parseModelId s).1.data ∧
      parseModelId "a/b/c" = ("a", "b/c")) :=
  ⟨by decide, parseModelId_first_slash "a/b/c" (by decide)⟩

/-! ## Credential records and the provider registry

`src/core/auth.ts` defines the credential record; `getCredentials` is a
lookup into the parsed auth file.  `src/core/providers.ts` `getProvider`
parses the model id, looks up credentials, guards on
`!creds || !creds.apiKey`, and dispatches on the provider id. -/

/-- Credential record, `src/core/auth.ts` `interface Credentials`
(plus the `enabledModels` list read by the `/v1/models` route). -/
structure Credentials where
  apiKey : Option String := none
  credType : Option String := none
  refresh : Option String := none
  expires : Option Int := none
  projectId : Option String := none
  enabledModels : List String := []
deriving Repr, DecidableEq

/-- The auth store: provider id → credential record (the parsed
`auth.json`); `getCredentials` in `src/core/auth.ts` is
`auth[providerId] || null`. -/
def AuthStore : Type := String → Option Credentials

/-- The provider handle returned by `getProvider`: one constructor per
branch of the `switch (providerBrand)` in `src/core/providers.ts`,
carrying exactly the configuration that branch passes to the SDK factory.
OpenAI-compatible branches that differ only in their fixed base URL
(deepseek, openrouter, xai, moonshot, zhipu, groq, together, minimax)
share the `openaiCompat` constructor with the base URL made explicit. -/
inductive ProviderHandle where
  | openai (apiKey model : String)
  | anthropic (apiKey model : String)
  | anthropicToken (bearerToken model : String)
  | google (apiKey model : String)
  | geminiCli (accessToken : String) (projectId : Option String) (model : String)
  | antigravity (accessToken : String) (projectId : Option String) (model : String)
  | openaiCompat (apiKey baseURL model : String)
  | ollama (apiKey baseURL model : String)
  | litellm (apiKey baseURL model : String)
  | azure (apiKey resourceName model : String)
  | vertex (project location model : String)
  | bedrock (region : String) (accessKeyId secretAccessKey : Option String) (model : String)
deriving Repr, DecidableEq

/-- `getProvider` from `src/core/providers.ts` (lines 14–183): validate the
model id shape, split at the first `/`, look up credentials, guard on
`!creds || !creds.apiKey`, then dispatch on the provider id.
`awsRegionEnv` models `process.env.AWS_REGION` read in the bedrock branch. -/
def getProvider (modelId : String) (auth : AuthStore) (awsRegionEnv : Option String) :
    Except String ProviderHandle :=
  if ¬ jsIncludes '/' modelId.data then
    .error ("Invalid model ID format: \"" ++ modelId ++ "\". Expected \"provider/model\"")
  else
    let providerBrand := (parseModelId modelId).1
    let modelName := (parseModelId modelId).2
    match auth providerBrand with
    | none =>
      .error ("No credentials found for provider: \"" ++ providerBrand ++
        "\" (extracted from \"" ++ modelId ++ "\")")
    | some creds =>
      if ¬ truthy creds.apiKey then
        .error ("No credentials found for provider: \"" ++ providerBrand ++
          "\" (extracted from \"" ++ modelId ++ "\")")
      else
        let key := creds.apiKey.getD ""
        match providerBrand with
        | "openai" => .ok (.openai key modelName)
        | "anthropic" => .ok (.anthropic key modelName)
        | "anthropic-token" => .ok (.anthropicToken key modelName)
        | "google" => .ok (.google key modelName)
        | "gemini-cli" => .ok (.geminiCli key creds.projectId modelName)
        | "antigravity" => .ok (.antigravity key creds.projectId modelName)
        | "deepseek" => .ok (.openaiCompat key "https://api.deepseek.com/v1" modelName)
        | "openrouter" => .ok (.openaiCompat key "https://openrouter.ai/api/v1" modelName)
        | "xai" => .ok (.openaiCompat key "https://api.x.ai/v1" modelName)
        | "moonshot" => .ok (.openaiCompat key "https://api.moonshot.cn/v1" modelName)
        | "zhipu" => .ok (.openaiCompat key "https://open.bigmodel.cn/api/paas/v4" modelName)
        | "groq" => .ok (.openaiCompat key "https://api.groq.com/openai/v1" modelName)
        | "together" => .ok (.openaiCompat key "https://api.together.xyz/v1" modelName)
        | "minimax" => .ok (.openaiCompat key "https://api.minimax.chat/v1" modelName)
        | "ollama" =>
          .ok (.ollama "ollama" (jsOr creds.apiKey "http://localhost:11434/v1") modelName)
        | "litellm" =>
          .ok (.litellm (jsOr creds.apiKey "unused")
            (jsOr creds.projectId "http://localhost:4000/v1") modelName)
        | "azure" =>
          if ¬ truthy creds.projectId then
            .error "Azure OpenAI requires a resource name. Set it via the TUI or auth.json (projectId field)."
          else
            .ok (.azure key (creds.projectId.getD "") modelName)
        | "vertex" =>
          if ¬ truthy creds.projectId then
            .error "Vertex AI requires a project ID. Set GOOGLE_CLOUD_PROJECT or configure via TUI."
          else
            .ok (.vertex (creds.projectId.getD "") (jsOr creds.apiKey "us-central1") modelName)
        | "bedrock" =>
          let region := jsOr creds.refresh (jsOr awsRegionEnv "us-east-1")
          if truthy creds.apiKey && truthy creds.projectId then
            .ok (.bedrock region creds.apiKey creds.projectId modelName)
          else
            .ok (.bedrock region none none modelName)
        | _ => .error ("Unsupported provider: " ++ providerBrand)

/-- The `/v1/chat/completions` route handler's provider-resolution stage,
`src/core/gateway.ts` lines 126–262: any error thrown by `getProvider` is
caught and returned as HTTP 500 with `{error:{message}}`; on success the
handler proceeds to the upstream call with the resolved handle. -/
inductive ChatOutcome where
  | errorResponse (status : Nat) (message : String)
  | upstream (handle : ProviderHandle)
deriving Repr, DecidableEq

/-- Provider-resolution stage of `POST /v1/chat/completions`. -/
def chatCompletionsResolve (modelId : String) (auth : AuthStore)
    (awsRegionEnv : Option String) : ChatOutcome :=
  match getProvider modelId auth awsRegionEnv with
  | .error msg => .errorResponse 500 msg
  | .ok h => .upstream h

theorem jsOr_of_truthy (a : Option String) (b : String) (h : truthy a = true) :
    jsOr a b = a.getD "" := by
  cases a with
  | none => simp [truthy] at h
  | some s =>
    simp only [truthy, Bool.not_eq_true'] at h
    simp [jsOr, h]

/-- Pointwise update of one provider's stored expiry in the auth store. -/
def authSetExpires (auth : AuthStore) (p : String) (e : Option Int) : AuthStore :=
  fun q => if q = p then (auth q).map (fun c => { c with expires := e }) else auth q

/-- **C3 (amended).** Resolving a model never inspects the stored credential
expiry: `getProvider` is invariant under arbitrary changes to any
provider's `expires` field, so no refresh decision is (or can be) taken at
request time; the handle it returns binds whatever `apiKey` is stored. -/
theorem getProvider_ignores_expiry (modelId : String) (auth : AuthStore)
    (env : Option String) (p : String) (e : Option Int) :
    getProvider modelId (authSetExpires auth p e) env = getProvider modelId auth env := by
  unfold getProvider
  by_cases hinc : jsIncludes '/' modelId.data = true
  · simp only [hinc]
    by_cases hp : (parseModelId modelId).1 = p
    · simp only [authSetExpires, hp, if_pos rfl]
      cases auth p with
      | none => rfl
      | some c => cases c; rfl
    · simp only [authSetExpires, if_neg hp]
  · simp [hinc]

/-- An auth store holding a single `gemini-cli` OAuth record whose stored
expiry is epoch 0, i.e. decades in the past. -/
def staleGeminiStore : AuthStore := fun q =>
  if q = "gemini-cli" then
    some { apiKey := some "stale-access-token", credType := some "oauth",
           refresh := some "refresh-token-1", expires := some 0,
           projectId := some "proj-1" }
  else none

/-- **C3 (counterexample).** With a `gemini-cli` OAuth credential whose
stored expiry is epoch 0 — long past, hence less than 5 minutes from any
present instant — `getProvider` succeeds and binds the stale access token
unchanged, and it returns the very same handle when the expiry is instead
far in the future: no token-refresh flow is invoked and nothing is
persisted before the upstream call. -/
theorem getProvider_stale_token_counterexample :
    getProvider "gemini-cli/gemini-2.5-pro" staleGeminiStore none =
      .ok (.geminiCli "stale-access-token" (some "proj-1") "gemini-2.5-pro") ∧
    getProvider "gemini-cli/gemini-2.5-pro"
        (authSetExpires staleGeminiStore "gemini-cli" (some 99999999999999)) none =
      getProvider "gemini-cli/gemini-2.5-pro" staleGeminiStore none := by
  exact ⟨rfl, getProvider_ignores_expiry _ _ _ _ _⟩

/-- The empty auth store: an absent or empty credential file parses to `{}`
(`loadAuth` in `src/core/auth.ts` returns `{}` on any failure). -/
def emptyAuth : AuthStore := fun _ => none

/-- **C8 (counterexample).** With an empty credential file,
`POST /v1/chat/completions` with `model:"nope/x"` does return HTTP 500, but
its body carries the credential-guard message — which fires before the
provider switch — not `"Unsupported provider: nope"`. -/
theorem chatCompletions_unknown_provider_counterexample :
    chatCompletionsResolve "nope/x" emptyAuth none =
      .errorResponse 500
        "No credentials found for provider: \"nope\" (extracted from \"nope/x\")" ∧
    ("No credentials found for provider: \"nope\" (extracted from \"nope/x\")" : String) ≠
      "Unsupported provider: nope" :=
  ⟨rfl, by decide⟩

/-- **C8 (amended).** `POST /v1/chat/completions` with `model:"nope/x"`
returns HTTP 500 with body message `"Unsupported provider: nope"` provided
the store holds a credential record with a non-empty `apiKey` for `nope`;
when the provider has no credential record (in particular with an empty
credential file), it returns HTTP 500 whose message mentions the provider
id, here the `openai` of `openai/gpt-4o-mini`. -/
theorem chatCompletions_provider_errors (auth : AuthStore) (env : Option String)
    (h : truthy ((auth "nope").bind Credentials.apiKey) = true) :
    chatCompletionsResolve "nope/x" auth env =
      .errorResponse 500 "Unsupported provider: nope" ∧
    (∀ auth' : AuthStore, auth' "openai" = none →
      chatCompletionsResolve "openai/gpt-4o-mini" auth' env =
        .errorResponse 500
          "No credentials found for provider: \"openai\" (extracted from \"openai/gpt-4o-mini\")") ∧
    (∃ pre post : String,
      "No credentials found for provider: \"openai\" (extracted from \"openai/gpt-4o-mini\")" =
        pre ++ "openai" ++ post) := by
  refine ⟨?_, ?_, ?_⟩
  · cases hA : auth "nope" with
    | none => rw [hA] at h; simp [truthy] at h
    | some c =>
      rw [hA] at h
      have h' : truthy c.apiKey = true := h
      have hA' : auth (parseModelId "nope/x").1 = some c := by
        rw [show (parseModelId "nope/x").1 = "nope" from by decide]; exact hA
      unfold chatCompletionsResolve getProvider
      simp only [hA', h']
      rfl
  · intro auth' hA
    have hA' : auth' (parseModelId "openai/gpt-4o-mini").1 = none := by
      rw [show (parseModelId "openai/gpt-4o-mini").1 = "openai" from by decide]; exact hA
    unfold chatCompletionsResolve getProvider
    simp only [hA']
    rfl
  · exact ⟨"No credentials found for provider: \"",
      "\" (extracted from \"openai/gpt-4o-mini\")", by decide⟩

/-- Witness for `chatCompletions_provider_errors`: a store holding a
non-empty key for the unregistered provider id `nope`. -/
theorem chatCompletions_provider_errors_witness :
    truthy (((fun q => if q = "nope" then some { apiKey := some "sk-1" } else none :
        AuthStore) "nope").bind Credentials.apiKey) = true ∧
    chatCompletionsResolve "nope/x"
        (fun q => if q = "nope" then some { apiKey := some "sk-1" } else none) none =
      .errorResponse 500 "Unsupported provider: nope" :=
  ⟨by decide, (chatCompletions_provider_errors
    (fun q => if q = "nope" then some { apiKey := some "sk-1" } else none) none
    (by decide)).1⟩

/-- An auth store holding a bedrock record with an AWS access key id in
`apiKey` but no `projectId` (no secret access key). -/
def bedrockKeyOnlyStore : AuthStore := fun q =>
  if q = "bedrock" then some { apiKey := some "AKIAEXAMPLE" } else none

/-- **C10 (counterexample).** The bedrock AWS-default-credential-chain
branch *is* reachable: a bedrock record with a non-empty `apiKey` but no
`projectId` passes the credential guard, and `createAmazonBedrock` is then
called without explicit keys, so the AWS SDK default chain applies. -/
theorem bedrock_default_chain_reachable :
    getProvider "bedrock/anthropic.claude-3" bedrockKeyOnlyStore none =
      .ok (.bedrock "us-east-1" none none "anthropic.claude-3") := rfl

/-- **C10 (amended).** `getProvider` throws the "No credentials found"
error exactly when the provider's record is absent or its `apiKey` is
absent or empty; consequently the ollama and litellm fallbacks are dead
(ollama's base URL is always the stored `apiKey`, litellm's key is always
the stored `apiKey`) — but the bedrock AWS-default-chain fallback remains
reachable whenever `projectId` is missing. -/
theorem getProvider_credential_guard (modelId : String) (auth : AuthStore)
    (env : Option String) (c : Credentials)
    (hinc : jsIncludes '/' modelId.data = true) :
    (truthy ((auth (parseModelId modelId).1).bind Credentials.apiKey) = false →
      getProvider modelId auth env =
        .error ("No credentials found for provider: \"" ++ (parseModelId modelId).1 ++
          "\" (extracted from \"" ++ modelId ++ "\")")) ∧
    ((parseModelId modelId).1 = "ollama" → auth "ollama" = some c →
      truthy c.apiKey = true →
      getProvider modelId auth env =
        .ok (.ollama "ollama" (c.apiKey.getD "") (parseModelId modelId).2)) ∧
    ((parseModelId modelId).1 = "litellm" → auth "litellm" = some c →
      truthy c.apiKey = true →
      getProvider modelId auth env =
        .ok (.litellm (c.apiKey.getD "")
          (jsOr c.projectId "http://localhost:4000/v1") (parseModelId modelId).2)) ∧
    ((parseModelId modelId).1 = "bedrock" → auth "bedrock" = some c →
      truthy c.apiKey = true → truthy c.projectId = false →
      getProvider modelId auth env =
        .ok (.bedrock (jsOr c.refresh (jsOr env "us-east-1")) none none
          (parseModelId modelId).2)) := by
  refine ⟨?_, ?_, ?_, ?_⟩
  · intro hguard
    unfold getProvider
    cases hA : auth (parseModelId modelId).1 with
    | none => simp [hinc, hA]
    | some d =>
      rw [hA] at hguard
      have hd : truthy d.apiKey = false := hguard
      simp [hinc, hA, hd]
  · intro hb hA hkey
    have hA' : auth (parseModelId modelId).1 = some c := by rw [hb]; exact hA
    unfold getProvider
    simp [hinc, hA', hA, hkey, hb, jsOr_of_truthy _ _ hkey]
  · intro hb hA hkey
    have hA' : auth (parseModelId modelId).1 = some c := by rw [hb]; exact hA
    unfold getProvider
    simp [hinc, hA', hA, hkey, hb, jsOr_of_truthy _ _ hkey]
  · intro hb hA hkey hproj
    have hA' : auth (parseModelId modelId).1 = some c := by rw [hb]; exact hA
    unfold getProvider
    simp [hinc, hA', hA, hkey, hb, hproj]

/-- Witness for `getProvider_credential_guard`: the guard clause at the
empty store, and the ollama clause at a store whose ollama `apiKey` holds a
custom base URL. -/
theorem getProvider_credential_guard_witness :
    jsIncludes '/' ("ollama/llama3" : String).data = true ∧
    (("ollama/llama3" : String) |> fun mid => (parseModelId mid).1 = "ollama") ∧
    getProvider "ollama/llama3"
        (fun q => if q = "ollama" then some { apiKey := some "http://my-host:11434/v1" } else none)
        none =
      .ok (.ollama "ollama" "http://my-host:11434/v1" "llama3") :=
  ⟨by decide, by decide,
    ((getProvider_credential_guard "ollama/llama3"
      (fun q => if q = "ollama" then some { apiKey := some "http://my-host:11434/v1" } else none)
      none { apiKey := some "http://my-host:11434/v1" } (by decide)).2.1
      (by decide) (by decide) (by decide)).trans rfl⟩

/-! ## Canonical stream events and the two SSE framings

The Vercel AI SDK's `fullStream` yields parts tagged `text-delta`,
`tool-call`, `finish`, etc.; the `finishReason` field is one of the SDK's
hyphenated strings (`'stop' | 'length' | 'tool-calls' | …`).
`src/core/gateway.ts` consumes this stream twice: the
`/v1/chat/completions` route writes OpenAI chunk frames (lines 175–226)
and the `/v1/messages` route writes Anthropic event frames
(lines 328–422). -/

/-- The SDK finish reason (`LanguageModelV1FinishReason`). -/
inductive FinishReason where
  | stop
  | length
  | toolCalls
  | contentFilter
  | error
  | other
  | unknown
deriving Repr, DecidableEq

/-- The literal string the SDK stores in `finishReason`; this is what the
gateway writes on the wire when it forwards `part.finishReason`. -/
def FinishReason.sdkString : FinishReason → String
  | .stop => "stop"
  | .length => "length"
  | .toolCalls => "tool-calls"
  | .contentFilter => "content-filter"
  | .error => "error"
  | .other => "other"
  | .unknown => "unknown"

/-- A part of the SDK `fullStream` as consumed by the gateway routes.
Tool-call arguments are modelled by their JSON serialization (the gateway
normalizes `part.args` to a string with
`typeof part.args === 'string' ? part.args : JSON.stringify(part.args)`).
`otherPart` stands for the part types both routes ignore. -/
inductive StreamPart where
  | textDelta (textDelta : String)
  | toolCall (toolCallId toolName args : String)
  | finish (finishReason : FinishReason)
  | otherPart
deriving Repr, DecidableEq

/-- One `data:` chunk of the chat-completions SSE stream (the fields that
vary per part; `id`/`created`/`model` are constant per response). -/
inductive ChatChunk where
  | contentDelta (content : String)
  | toolCallDelta (id name arguments : String)
  | finishChunk (finishReason : String)
  | done
deriving Repr, DecidableEq

/-- The `/v1/chat/completions` streaming loop, `src/core/gateway.ts` lines
175–226: `text-delta` → content chunk, `tool-call` → tool-call chunk,
`finish` → chunk whose `finish_reason` is `part.finishReason` forwarded
verbatim; after the loop a literal `data: [DONE]`. -/
def chatFrame (parts : List StreamPart) : List ChatChunk :=
  (parts.flatMap fun part =>
    match part with
    | .textDelta d => [.contentDelta d]
    | .toolCall id name args => [.toolCallDelta id name args]
    | .finish r => [.finishChunk r.sdkString]
    | .otherPart => []) ++ [.done]

/-- One event frame of the Anthropic messages SSE stream.  The index is an
`Int` because the route's `currentBlockIndex` counter starts at `-1`. -/
inductive MsgEvent where
  | messageStart
  | blockStartText (index : Int)
  | blockStartToolUse (index : Int) (id name : String)
  | blockDeltaText (index : Int) (text : String)
  | blockDeltaInputJson (index : Int) (partialJson : String)
  | blockStop (index : Int)
  | messageDelta (stopReason : String)
  | messageStop
deriving Repr, DecidableEq

/-- Mutable state of the `/v1/messages` streaming loop:
`currentBlockIndex = -1`, `textBlockOpen = false`, `hasToolCalls = false`
initially. -/
structure MsgState where
  currentBlockIndex : Int
  textBlockOpen : Bool
  hasToolCalls : Bool
deriving Repr, DecidableEq

/-- One iteration of the `for await (const part of result.fullStream)` loop
of the `/v1/messages` route (lines 347–401): text deltas open a text block
on demand; a tool call closes any open text block, then opens, fills and
closes a `tool_use` block; all other part types are ignored. -/
def msgStep (s : MsgState) (part : StreamPart) : MsgState × List MsgEvent :=
  match part with
  | .textDelta d =>
    if s.textBlockOpen then
      (s, [.blockDeltaText s.currentBlockIndex d])
    else
      let i := s.currentBlockIndex + 1
      ({ s with currentBlockIndex := i, textBlockOpen := true },
        [.blockStartText i, .blockDeltaText i d])
  | .toolCall id name args =>
    let closeEvents := if s.textBlockOpen then [MsgEvent.blockStop s.currentBlockIndex] else []
    let i := s.currentBlockIndex + 1
    ({ currentBlockIndex := i, textBlockOpen := false, hasToolCalls := true },
      closeEvents ++ [.blockStartToolUse i id name, .blockDeltaInputJson i args, .blockStop i])
  | .finish _ => (s, [])
  | .otherPart => (s, [])

/-- The whole loop over the stream parts. -/
def msgLoop (s : MsgState) : List StreamPart → MsgState × List MsgEvent
  | [] => (s, [])
  | p :: ps =>
    let (s', evs) := msgStep s p
    let (s'', evs') := msgLoop s' ps
    (s'', evs ++ evs')

/-- The full `/v1/messages` streaming response body (lines 328–422):
`message_start`, the loop, a closing `content_block_stop` if a text block
is still open, then `message_delta` with
`stop_reason = hasToolCalls ? "tool_use" : "end_turn"` and `message_stop`. -/
def messagesFrame (parts : List StreamPart) : List MsgEvent :=
  let (s, evs) := msgLoop ⟨-1, false, false⟩ parts
  [MsgEvent.messageStart] ++ evs ++
    (if s.textBlockOpen then [MsgEvent.blockStop s.currentBlockIndex] else []) ++
    [MsgEvent.messageDelta (if s.hasToolCalls then "tool_use" else "end_turn"),
     MsgEvent.messageStop]

/-- Project the block bracketing out of an event: `(true, i)` for a
`content_block_start` with index `i` (text or tool_use), `(false, i)` for a
`content_block_stop`. -/
def blockSig : MsgEvent → Option (Bool × Int)
  | .blockStartText i => some (true, i)
  | .blockStartToolUse i _ _ => some (true, i)
  | .blockStop i => some (false, i)
  | _ => none

/-- The well-bracketed signature `[(start, i), (stop, i), (start, i+1),
(stop, i+1), …]` of `n` consecutive blocks beginning at index `start`. -/
def pairsFrom (start : Int) : Nat → List (Bool × Int)
  | 0 => []
  | n + 1 => (true, start) :: (false, start) :: pairsFrom (start + 1) n

/-- Loop invariant for the `/v1/messages` framing: from any state, the
events of the rest of the loop followed by the final closing
`content_block_stop` (if a text block is still open) have a well-bracketed
signature — completing the pending block first when one is open. -/
theorem msgLoop_sig (ps : List StreamPart) :
    ∀ (i : Int) (o h : Bool), ∃ n : Nat,
      ((msgLoop ⟨i, o, h⟩ ps).2 ++
        (if (msgLoop ⟨i, o, h⟩ ps).1.textBlockOpen then
          [MsgEvent.blockStop (msgLoop ⟨i, o, h⟩ ps).1.currentBlockIndex] else [])).filterMap
        blockSig =
      if o then (false, i) :: pairsFrom (i + 1) n else pairsFrom (i + 1) n := by
  induction ps with
  | nil =>
    intro i o h
    refine ⟨0, ?_⟩
    cases o <;> simp [msgLoop, pairsFrom, blockSig]
  | cons p ps ih =>
    intro i o h
    cases p with
    | textDelta d =>
      cases o with
      | true =>
        obtain ⟨n, hn⟩ := ih i true h
        refine ⟨n, ?_⟩
        simpa [msgLoop, msgStep, blockSig] using hn
      | false =>
        obtain ⟨n, hn⟩ := ih (i + 1) true h
        refine ⟨n + 1, ?_⟩
        simp only [if_pos rfl] at hn
        simp [msgLoop, msgStep, blockSig, pairsFrom, hn]
    | toolCall id name args =>
      cases o with
      | true =>
        obtain ⟨n, hn⟩ := ih (i + 1) false true
        refine ⟨n + 1, ?_⟩
        simp only [if_neg (show ¬(false = true) by decide)] at hn
        simp [msgLoop, msgStep, blockSig, pairsFrom, hn]
      | false =>
        obtain ⟨n, hn⟩ := ih (i + 1) false true
        refine ⟨n + 1, ?_⟩
        simp only [if_neg (show ¬(false = true) by decide)] at hn
        simp [msgLoop, msgStep, blockSig, pairsFrom, hn]
    | finish r =>
      obtain ⟨n, hn⟩ := ih i o h
      refine ⟨n, ?_⟩
      simpa [msgLoop, msgStep, blockSig] using hn
    | otherPart =>
      obtain ⟨n, hn⟩ := ih i o h
      refine ⟨n, ?_⟩
      simpa [msgLoop, msgStep, blockSig] using hn

/-- **C1.** In every SSE stream produced by `POST /v1/messages`, the events
between `message_start` and the final `message_delta`/`message_stop` have
block signature `[(start, 0), (stop, 0), (start, 1), (stop, 1), …]`: every
`content_block_start` is followed by exactly one matching
`content_block_stop` with the same index before `message_delta` is
written, and block indices strictly increase starting from `0` (the
counter `currentBlockIndex` is initialized to `-1` in `messagesFrame`). -/
theorem messagesFrame_balanced (parts : List StreamPart) :
    ∃ (n : Nat) (pre : List MsgEvent) (r : String),
      messagesFrame parts =
        MsgEvent.messageStart :: (pre ++ [MsgEvent.messageDelta r, MsgEvent.messageStop]) ∧
      pre.filterMap blockSig = pairsFrom 0 n := by
  obtain ⟨n, hn⟩ := msgLoop_sig parts (-1) false false
  simp only [if_neg (show ¬(false = true) by decide)] at hn
  refine ⟨n,
    (msgLoop ⟨-1, false, false⟩ parts).2 ++
      (if (msgLoop ⟨-1, false, false⟩ parts).1.textBlockOpen then
        [MsgEvent.blockStop (msgLoop ⟨-1, false, false⟩ parts).1.currentBlockIndex] else []),
    (if (msgLoop ⟨-1, false, false⟩ parts).1.hasToolCalls then "tool_use" else "end_turn"),
    ?_, ?_⟩
  · simp [messagesFrame]
  · simpa using hn

/-- **C2 (failing input).** The chat-completions streaming loop forwards
the SDK's `finishReason` string verbatim: when a stream finishes because
tools were called, the final chunk before `data: [DONE]` carries
`finish_reason: "tool-calls"` — the adapter-layer spelling — and no chunk
of any chat-completions stream ever carries the canonical spelling
`"tool_calls"`. -/
theorem chatFrame_tool_calls_spelling :
    chatFrame [.toolCall "call_1" "get_weather" "\x7b\"location\":\"Tokyo\"\x7d",
               .finish .toolCalls] =
      [.toolCallDelta "call_1" "get_weather" "\x7b\"location\":\"Tokyo\"\x7d",
       .finishChunk "tool-calls", .done] ∧
    ("tool-calls" : String) ≠ "tool_calls" ∧
    ∀ parts : List StreamPart,
      (chatFrame parts).count (ChatChunk.finishChunk "tool_calls") = 0 := by
  refine ⟨rfl, by decide, ?_⟩
  intro parts
  induction parts with
  | nil => rfl
  | cons p ps ih =>
    have hsplit : chatFrame (p :: ps) =
        (match p with
          | .textDelta d => [ChatChunk.contentDelta d]
          | .toolCall id name args => [ChatChunk.toolCallDelta id name args]
          | .finish r => [ChatChunk.finishChunk r.sdkString]
          | .otherPart => []) ++ chatFrame ps := by
      simp [chatFrame]
    rw [hsplit, List.count_append, ih]
    cases p with
    | textDelta d => simp [List.count_cons]
    | toolCall id name args => simp [List.count_cons]
    | finish r => cases r <;> rfl
    | otherPart => rfl

/-! ## Anthropic messages → SDK messages (`convertAnthropicMessages`)

`src/core/gateway.ts` lines 16–92: user messages with array content are
split into standalone `role:"tool"` messages (one per `tool_result` block)
followed by at most one `role:"user"` message collecting the text and
image blocks; assistant `thinking` blocks are skipped. -/

/-- `block.source` of an Anthropic image block. -/
structure ImageSource where
  data : Option String := none
  mediaType : Option String := none
deriving Repr, DecidableEq

/-- An entry of a `tool_result` block's array-valued `content`.  The
converter only reads entries with `type === 'text'` (and their `text`);
every other entry shape is represented by `nonText`. -/
inductive TRItem where
  | text (text : String)
  | nonText
deriving Repr, DecidableEq

/-- The `content` of a `tool_result` block: a string, an array of entries,
or anything else (which contributes the empty string). -/
inductive TRContent where
  | str (s : String)
  | arr (items : List TRItem)
  | otherContent
deriving Repr, DecidableEq

/-- An Anthropic content block as inspected by the converter.  `toolUse`'s
`input` is modelled by its JSON serialization. -/
inductive ABlock where
  | text (text : String)
  | image (source : Option ImageSource)
  | toolResult (toolUseId : String) (content : TRContent)
  | toolUse (id name : String) (input : String)
  | thinking (thinking : String)
  | otherBlock
deriving Repr, DecidableEq

/-- Message content: JS string or array of blocks. -/
inductive AContent where
  | str (s : String)
  | arr (blocks : List ABlock)
deriving Repr, DecidableEq

/-- An inbound Anthropic message. -/
structure AMessage where
  role : String
  content : AContent
deriving Repr, DecidableEq

/-- A content part of an SDK `CoreMessage`. -/
inductive CorePart where
  | text (text : String)
  | image (image : String) (mimeType : Option String)
  | toolCall (toolCallId toolName : String) (args : String)
  | toolResult (toolCallId : String) (result : String)
deriving Repr, DecidableEq

/-- An SDK `CoreMessage` as produced by the converter. -/
inductive CoreMessage where
  | userStr (content : String)
  | user (content : List CorePart)
  | assistantStr (content : String)
  | assistant (content : List CorePart)
  | tool (content : List CorePart)
deriving Repr, DecidableEq

/-- The `textContent` extraction for one `tool_result` block (lines 46–54):
string content is taken as-is; array content is filtered to `text` entries
whose texts are joined with `\n`; anything else leaves `''`. -/
def trText : TRContent → String
  | .str s => s
  | .arr items =>
    String.intercalate "\n" (items.filterMap fun it =>
      match it with
      | .text t => some t
      | .nonText => none)
  | .otherContent => ""

/-- The single pass over a user message's blocks (lines 27–42) that pushes
text/image blocks onto `userParts` and `tool_result` blocks onto
`toolResults`, in order. -/
def splitUserBlocks : List ABlock → List CorePart × List ABlock
  | [] => ([], [])
  | b :: bs =>
    let rest := splitUserBlocks bs
    match b with
    | .toolResult _ _ => (rest.1, b :: rest.2)
    | .text t => (CorePart.text t :: rest.1, rest.2)
    | .image src =>
      (CorePart.image (jsOr (src.bind ImageSource.data) "")
        (src.bind ImageSource.mediaType) :: rest.1, rest.2)
    | _ => rest

/-- The tool-call id of a `tool_result` block (`tr.tool_use_id`). -/
def toolResultId : ABlock → String
  | .toolResult id _ => id
  | _ => ""

/-- The extracted text of a `tool_result` block. -/
def toolResultText : ABlock → String
  | .toolResult _ content => trText content
  | _ => ""

/-- The assistant-branch loop (lines 71–84): `text` blocks become text
parts, `tool_use` blocks become tool-call parts, everything else —
including `thinking` blocks — is skipped. -/
def assistantParts : List ABlock → List CorePart
  | [] => []
  | b :: bs =>
    match b with
    | .text t => CorePart.text t :: assistantParts bs
    | .toolUse id name input => CorePart.toolCall id name input :: assistantParts bs
    | _ => assistantParts bs

/-- Conversion of a single inbound message (the body of the `for` loop of
`convertAnthropicMessages`, lines 19–89). -/
def convertOne (m : AMessage) : List CoreMessage :=
  match m.role, m.content with
  | "user", .str s => [.userStr s]
  | "user", .arr blocks =>
    let split := splitUserBlocks blocks
    split.2.map (fun tr => CoreMessage.tool
      [CorePart.toolResult (toolResultId tr) (toolResultText tr)]) ++
      (if split.1.isEmpty then [] else [CoreMessage.user split.1])
  | "assistant", .str s => [.assistantStr s]
  | "assistant", .arr blocks =>
    let parts := assistantParts blocks
    if parts.isEmpty then [] else [.assistant parts]
  | _, _ => []

/-- `convertAnthropicMessages`, `src/core/gateway.ts` lines 16–92. -/
def convertAnthropicMessages : List AMessage → List CoreMessage
  | [] => []
  | m :: ms => convertOne m ++ convertAnthropicMessages ms

/-- Does a block have `type === 'tool_result'`? -/
def isToolResultB : ABlock → Bool
  | .toolResult _ _ => true
  | _ => false

/-- Does a block have `type === 'thinking'`? -/
def isThinkingB : ABlock → Bool
  | .thinking _ => true
  | _ => false

/-- The canonical user part a block contributes (`text` and `image` blocks
only), per the claim's reading of the spec. -/
def userPartOf : ABlock → Option CorePart
  | .text t => some (.text t)
  | .image src =>
    some (.image (jsOr (src.bind ImageSource.data) "") (src.bind ImageSource.mediaType))
  | _ => none

theorem splitUserBlocks_fst (blocks : List ABlock) :
    (splitUserBlocks blocks).1 = blocks.filterMap userPartOf := by
  induction blocks with
  | nil => rfl
  | cons b bs ih => cases b <;> simp [splitUserBlocks, userPartOf, ih]

theorem splitUserBlocks_snd (blocks : List ABlock) :
    (splitUserBlocks blocks).2 = blocks.filter isToolResultB := by
  induction blocks with
  | nil => rfl
  | cons b bs ih => cases b <;> simp [splitUserBlocks, isToolResultB, ih]

theorem convertAnthropicMessages_append (ms ms' : List AMessage) :
    convertAnthropicMessages (ms ++ ms') =
      convertAnthropicMessages ms ++ convertAnthropicMessages ms' := by
  induction ms with
  | nil => rfl
  | cons m ms ih => simp [convertAnthropicMessages, ih]

/-- **C4.** In any inbound message list, a user message whose content is an
array converts to one canonical `tool` message per `tool_result` block, in
block order, followed by at most one canonical `user` message collecting
exactly the text and image blocks of that same inbound message (none when
there are no such blocks); and assistant `thinking` blocks produce no
output at all — converting an assistant message is unchanged by deleting
its `thinking` blocks. -/
theorem convertAnthropicMessages_user_split (pre post : List AMessage)
    (blocks : List ABlock) :
    convertAnthropicMessages (pre ++ ⟨"user", .arr blocks⟩ :: post) =
      convertAnthropicMessages pre ++
        ((blocks.filter isToolResultB).map (fun tr => CoreMessage.tool
            [CorePart.toolResult (toolResultId tr) (toolResultText tr)]) ++
          (if (blocks.filterMap userPartOf).isEmpty then []
            else [CoreMessage.user (blocks.filterMap userPartOf)])) ++
        convertAnthropicMessages post ∧
    (∀ ablocks : List ABlock,
      convertOne ⟨"assistant", .arr ablocks⟩ =
        convertOne ⟨"assistant", .arr (ablocks.filter (fun b => !isThinkingB b))⟩) := by
  constructor
  · rw [convertAnthropicMessages_append]
    show convertAnthropicMessages pre ++
      (convertOne ⟨"user", .arr blocks⟩ ++ convertAnthropicMessages post) = _
    rw [convertOne]
    simp [splitUserBlocks_fst, splitUserBlocks_snd]
  · intro ablocks
    have : assistantParts ablocks =
        assistantParts (ablocks.filter (fun b => !isThinkingB b)) := by
      induction ablocks with
      | nil => rfl
      | cons b bs ih => cases b <;> simp [assistantParts, isThinkingB, ih]
    simp [convertOne, this]

/-! ## The cursor-agent subprocess adapter (`CursorProvider.doStream`)

The tool-interception variant of the adapter: `cursor-agent`'s NDJSON
stdout is parsed line by line (`parseEvent`); `assistant`/`thinking`
events carry cumulative text from which a delta is computed (the
`DeltaTracker`); `tool_call` events whose de-camelCased key resolves to a
caller-provided tool are intercepted at most once per call id; on child
exit a `finish` part is emitted whose reason is `'tool-calls'` when any
tool call was intercepted, else `'stop'`.  The `Nat` paired with each
event models `Date.now()` at processing time, used only for the
`call_${Date.now()}` fallback id. -/

/-- One entry of an `assistant` event's `message.content`. -/
inductive CContent where
  | ctext (text : String)
  | cthinking (thinking : String)
deriving Repr, DecidableEq

/-- The payload under a key of a `tool_call` event's `tool_call` object;
`args` is modelled by the JSON serialization the adapter would produce
(`JSON.stringify(tcArgs)`), `none` when the `args` key is absent. -/
structure ToolCallPayload where
  args : Option String := none
  result : Option String := none
deriving Repr, DecidableEq

/-- A parsed NDJSON event from `cursor-agent` stdout (the output of
`parseEvent` for the event types the adapter inspects). -/
inductive CursorEvent where
  | assistant (content : List CContent)
  | thinkingEvt (text : Option String)
  | toolCallEvt (callId toolCallIdField : Option String)
      (toolCall : List (String × ToolCallPayload))
  | otherEvt
deriving Repr, DecidableEq

/-- `extractText`: join of the `text` entries. -/
def extractCText (content : List CContent) : String :=
  String.join (content.filterMap fun c =>
    match c with
    | .ctext t => some t
    | .cthinking _ => none)

/-- `extractThinking` on an assistant event: join of `thinking` entries. -/
def extractCThinking (content : List CContent) : String :=
  String.join (content.filterMap fun c =>
    match c with
    | .ctext _ => none
    | .cthinking t => some t)

def isCText : CContent → Bool
  | .ctext _ => true
  | _ => false

def isCThinking : CContent → Bool
  | .cthinking _ => true
  | _ => false

/-- `inferToolName`: the first key of the `tool_call` object; a key ending
in `ToolCall` is stripped and its first character lowercased
(`readToolCall → read`); no key yields `''`. -/
def inferToolName (toolCall : List (String × ToolCallPayload)) : String :=
  match toolCall with
  | [] => ""
  | (key, _) :: _ =>
    if key.endsWith "ToolCall" then
      let base := key.dropRight 8
      match base.data with
      | [] => ""
      | c :: cs => String.mk (c.toLower :: cs)
    else key

/-- `extractToolArgs`: the `args` of the first key's payload. -/
def extractToolArgs (toolCall : List (String × ToolCallPayload)) : Option String :=
  match toolCall with
  | [] => none
  | (_, payload) :: _ => payload.args

/-- `name.toLowerCase().replace(/[^a-z0-9]/g, '')` (tool names are ASCII,
for which `Char.toLower` agrees with JS `toLowerCase`). -/
def normalizeToolName (s : String) : String :=
  String.mk ((s.data.map Char.toLower).filter fun c =>
    ('a' ≤ c ∧ c ≤ 'z') ∨ ('0' ≤ c ∧ c ≤ '9'))

/-- `resolveAllowedTool`: exact match first, then the first caller tool
whose normalized name equals the normalized cursor name. -/
def resolveAllowedTool (cursorName : String) (allowed : List String) : Option String :=
  if allowed.contains cursorName then some cursorName
  else allowed.find? fun a => normalizeToolName a = normalizeToolName cursorName

/-- Mutable state of the `doStream` NDJSON loop: the `DeltaTracker`'s two
cumulative strings, the `interceptedIds` set, and `hasInterceptedToolCalls`. -/
structure CursorState where
  lastText : String
  lastThinking : String
  interceptedIds : List String
  hasIntercepted : Bool
deriving Repr, DecidableEq

/-- `DeltaTracker.nextText` applied to cumulative text `v`, with emission
of the delta when it is non-empty. -/
def trackText (s : CursorState) (v : String) : CursorState × List StreamPart :=
  let d := if v.startsWith s.lastText then v.drop s.lastText.length else v
  ({ s with lastText := v }, if d.isEmpty then [] else [.textDelta d])

/-- `DeltaTracker.nextThinking`, emitted as a text delta (the adapter has
no separate thinking part type). -/
def trackThinking (s : CursorState) (t : String) : CursorState × List StreamPart :=
  let d := if t.startsWith s.lastThinking then t.drop s.lastThinking.length else t
  ({ s with lastThinking := t }, if d.isEmpty then [] else [.textDelta d])

/-- Processing of one parsed NDJSON event (the `child.stdout.on('data')`
handler body of `CursorProvider.doStream`, tool-interception variant,
lines 358–407).  `now` is `Date.now()` at this iteration. -/
def cursorStep (allowed : List String) (s : CursorState)
    (event : CursorEvent) (now : Nat) : CursorState × List StreamPart :=
  match event with
  | .assistant content =>
    let r1 := if content.any isCText then trackText s (extractCText content) else (s, [])
    let r2 :=
      if content.any isCThinking then trackThinking r1.1 (extractCThinking content)
      else (r1.1, [])
    (r2.1, r1.2 ++ r2.2)
  | .thinkingEvt text =>
    match text with
    | some t => if t.isEmpty then (s, []) else trackThinking s t
    | none => (s, [])
  | .toolCallEvt callId toolCallIdField toolCall =>
    if allowed.isEmpty then (s, [])
    else
      match resolveAllowedTool (inferToolName toolCall) allowed with
      | none => (s, [])
      | some resolvedName =>
        let cid := jsOr callId (jsOr toolCallIdField ("call_" ++ toString now))
        match extractToolArgs toolCall with
        | none => (s, [])
        | some argsJson =>
          if cid ∈ s.interceptedIds then (s, [])
          else
            ({ s with interceptedIds := cid :: s.interceptedIds, hasIntercepted := true },
              [.toolCall cid resolvedName argsJson])
  | .otherEvt => (s, [])

/-- The loop over all NDJSON events. -/
def cursorLoop (allowed : List String) (s : CursorState) :
    List (CursorEvent × Nat) → CursorState × List StreamPart
  | [] => (s, [])
  | (e, now) :: evs =>
    ((cursorLoop allowed (cursorStep allowed s e now).1 evs).1,
      (cursorStep allowed s e now).2 ++
        (cursorLoop allowed (cursorStep allowed s e now).1 evs).2)

/-- The whole streaming run: process every event, then on child exit emit
`finish` with reason `'tool-calls'` iff any tool call was intercepted. -/
def cursorDoStream (allowed : List String) (events : List (CursorEvent × Nat)) :
    List StreamPart :=
  (cursorLoop allowed ⟨"", "", [], false⟩ events).2 ++
    [.finish
      (if (cursorLoop allowed ⟨"", "", [], false⟩ events).1.hasIntercepted then .toolCalls
        else .stop)]

/-- The call id the adapter would assign to a `tool_call` event
(`tcEvent.call_id || tcEvent.tool_call_id || `call_${Date.now()}``). -/
def eventResolvedId : CursorEvent × Nat → String
  | (.toolCallEvt callId toolCallIdField _, now) =>
    jsOr callId (jsOr toolCallIdField ("call_" ++ toString now))
  | _ => ""

/-- Is this event an interceptable tool call: tools were provided, the
de-camelCased name resolves against the caller's tools (case-insensitive
alphanumeric-only comparison), and the payload carries `args`? -/
def intercepts (allowed : List String) : CursorEvent × Nat → Bool
  | (.toolCallEvt _ _ toolCall, _) =>
    !allowed.isEmpty &&
      (resolveAllowedTool (inferToolName toolCall) allowed).isSome &&
      (extractToolArgs toolCall).isSome
  | _ => false

def isToolCallPartWithId (c : String) : StreamPart → Bool
  | .toolCall id _ _ => id = c
  | _ => false

theorem trackText_state (s : CursorState) (v : String) :
    (trackText s v).1.interceptedIds = s.interceptedIds ∧
    (trackText s v).1.hasIntercepted = s.hasIntercepted :=
  ⟨rfl, rfl⟩

theorem trackThinking_state (s : CursorState) (t : String) :
    (trackThinking s t).1.interceptedIds = s.interceptedIds ∧
    (trackThinking s t).1.hasIntercepted = s.hasIntercepted :=
  ⟨rfl, rfl⟩

theorem trackText_onlyText (s : CursorState) (v : String) :
    ∀ p ∈ (trackText s v).2, ∃ d, p = StreamPart.textDelta d := by
  intro p hp
  simp only [trackText] at hp
  split at hp <;> simp at hp <;> exact ⟨_, hp.2⟩

theorem trackThinking_onlyText (s : CursorState) (t : String) :
    ∀ p ∈ (trackThinking s t).2, ∃ d, p = StreamPart.textDelta d := by
  intro p hp
  simp only [trackThinking] at hp
  split at hp <;> simp at hp <;> exact ⟨_, hp.2⟩

/-- Case analysis of one `cursorStep`: either the event is not an
interceptable tool call — then the intercepted-id set and flag are
untouched and only text deltas are emitted — or it is, and it is either
deduplicated (id already intercepted, nothing emitted) or intercepted
(id recorded, flag set, exactly one `toolCall` part emitted with that id). -/
theorem cursorStep_cases (allowed : List String) (s : CursorState)
    (e : CursorEvent) (now : Nat) :
    ((cursorStep allowed s e now).1.interceptedIds = s.interceptedIds ∧
      (cursorStep allowed s e now).1.hasIntercepted = s.hasIntercepted ∧
      (∀ p ∈ (cursorStep allowed s e now).2, ∃ d, p = StreamPart.textDelta d) ∧
      intercepts allowed (e, now) = false) ∨
    (intercepts allowed (e, now) = true ∧
      ((eventResolvedId (e, now) ∈ s.interceptedIds ∧
          cursorStep allowed s e now = (s, [])) ∨
        (eventResolvedId (e, now) ∉ s.interceptedIds ∧
          (cursorStep allowed s e now).1.interceptedIds =
            eventResolvedId (e, now) :: s.interceptedIds ∧
          (cursorStep allowed s e now).1.hasIntercepted = true ∧
          ∃ name args, (cursorStep allowed s e now).2 =
            [StreamPart.toolCall (eventResolvedId (e, now)) name args]))) := by
  cases e with
  | assistant content =>
    left
    refine ⟨?_, ?_, ?_, rfl⟩
    · simp only [cursorStep]
      split <;> split <;>
        simp [(trackText_state _ _).1, (trackThinking_state _ _).1]
    · simp only [cursorStep]
      split <;> split <;>
        simp [(trackText_state _ _).2, (trackThinking_state _ _).2]
    · intro p hp
      simp only [cursorStep, List.mem_append] at hp
      rcases hp with hp | hp
      · rw [apply_ite Prod.snd] at hp
        split at hp
        · exact trackText_onlyText _ _ p hp
        · cases hp
      · rw [apply_ite Prod.snd] at hp
        split at hp
        · exact trackThinking_onlyText _ _ p hp
        · cases hp
  | thinkingEvt text =>
    left
    cases text with
    | none => exact ⟨rfl, rfl, by simp [cursorStep], rfl⟩
    | some t =>
      refine ⟨?_, ?_, ?_, rfl⟩
      · simp only [cursorStep]
        split
        · rfl
        · exact (trackThinking_state _ _).1
      · simp only [cursorStep]
        split
        · rfl
        · exact (trackThinking_state _ _).2
      · intro p hp
        simp only [cursorStep] at hp
        split at hp
        · cases hp
        · exact trackThinking_onlyText _ _ p hp
  | otherEvt => exact .inl ⟨rfl, rfl, by simp [cursorStep], rfl⟩
  | toolCallEvt callId toolCallIdField toolCall =>
    by_cases hempty : allowed.isEmpty
    · left
      refine ⟨?_, ?_, ?_, ?_⟩ <;> simp [cursorStep, intercepts, hempty]
    · cases hres : resolveAllowedTool (inferToolName toolCall) allowed with
      | none =>
        left
        refine ⟨?_, ?_, ?_, ?_⟩ <;> simp [cursorStep, intercepts, hempty, hres]
      | some resolvedName =>
        cases hargs : extractToolArgs toolCall with
        | none =>
          left
          refine ⟨?_, ?_, ?_, ?_⟩ <;> simp [cursorStep, intercepts, hempty, hres, hargs]
        | some argsJson =>
          right
          refine ⟨by simp [intercepts, hempty, hres, hargs], ?_⟩
          by_cases hmem :
              jsOr callId (jsOr toolCallIdField ("call_" ++ toString now)) ∈
                s.interceptedIds
          · left
            refine ⟨by simpa [eventResolvedId] using hmem, ?_⟩
            simp [cursorStep, hempty, hres, hargs, hmem]
          · right
            refine ⟨by simpa [eventResolvedId] using hmem, ?_, ?_, resolvedName, argsJson, ?_⟩ <;>
              simp [cursorStep, eventResolvedId, hempty, hres, hargs, hmem]


/-- Interception count invariant of the NDJSON loop: from any state, the
number of `toolCall` parts emitted with a given call id `c` is one exactly
when `c` is not yet intercepted and some remaining event is an
interceptable tool call resolving to id `c`, and zero otherwise. -/
theorem cursorLoop_count (allowed : List String) (c : String) :
    ∀ (events : List (CursorEvent × Nat)) (s : CursorState),
      (cursorLoop allowed s events).2.countP (isToolCallPartWithId c) =
        if c ∉ s.interceptedIds ∧
            events.any (fun ev => intercepts allowed ev && (eventResolvedId ev == c)) = true
        then 1 else 0 := by
  intro events
  induction events with
  | nil => intro s; simp [cursorLoop]
  | cons ev evs ih =>
    intro s
    obtain ⟨e, now⟩ := ev
    rcases cursorStep_cases allowed s e now with ⟨hids, hflag, honly, hint⟩ | ⟨hint, hcase⟩
    · have hzero : (cursorStep allowed s e now).2.countP (isToolCallPartWithId c) = 0 := by
        rw [List.countP_eq_zero]
        intro p hp
        obtain ⟨d, rfl⟩ := honly p hp
        simp [isToolCallPartWithId]
      simp only [cursorLoop, List.countP_append, hzero, Nat.zero_add, ih, hids]
      exact if_congr (by simp [hint]) rfl rfl
    · rcases hcase with ⟨hmem, hstep⟩ | ⟨hmem, hids, hflag, name, args, hout⟩
      · simp only [cursorLoop, hstep, List.nil_append, ih]
        by_cases hdc : eventResolvedId (e, now) = c
        · have hcmem : c ∈ s.interceptedIds := hdc ▸ hmem
          exact if_congr (by simp [hcmem]) rfl rfl
        · have hbeq : (eventResolvedId (e, now) == c) = false := by simp [hdc]
          exact if_congr (by simp [List.any_cons, hbeq]) rfl rfl
      · simp only [cursorLoop, hout, List.countP_append, ih, hids]
        by_cases hdc : eventResolvedId (e, now) = c
        · have hcmem : c ∉ s.interceptedIds := hdc ▸ hmem
          have h1 : List.countP (isToolCallPartWithId c)
              [StreamPart.toolCall (eventResolvedId (e, now)) name args] = 1 := by
            simp [isToolCallPartWithId, hdc]
          have hnot : ¬(c ∉ eventResolvedId (e, now) :: s.interceptedIds ∧
              (evs.any fun ev => intercepts allowed ev && (eventResolvedId ev == c)) = true) := by
            rintro ⟨hc, -⟩
            exact hc (by simp [hdc])
          have hpos : c ∉ s.interceptedIds ∧
              (((e, now) :: evs).any fun ev =>
                intercepts allowed ev && (eventResolvedId ev == c)) = true :=
            ⟨hcmem, by simp [List.any_cons, hint, hdc]⟩
          rw [h1, if_neg hnot, if_pos hpos]
        · have hdc' : ¬(c = eventResolvedId (e, now)) := fun h => hdc h.symm
          have hbeq : (eventResolvedId (e, now) == c) = false := by simp [hdc]
          have h0 : List.countP (isToolCallPartWithId c)
              [StreamPart.toolCall (eventResolvedId (e, now)) name args] = 0 := by
            simp [isToolCallPartWithId, hdc]
          rw [h0, Nat.zero_add]
          exact if_congr (by simp [List.any_cons, hbeq, List.mem_cons, hdc']) rfl rfl

/-- Flag invariant of the NDJSON loop: provided the intercepted-id set is
empty whenever the flag is clear (true of the initial state),
`hasInterceptedToolCalls` ends up set iff it was set or some event is an
interceptable tool call. -/
theorem cursorLoop_flag (allowed : List String) :
    ∀ (events : List (CursorEvent × Nat)) (s : CursorState),
      (s.hasIntercepted = false → s.interceptedIds = []) →
      (cursorLoop allowed s events).1.hasIntercepted =
        (s.hasIntercepted || events.any (intercepts allowed)) := by
  intro events
  induction events with
  | nil => intro s _; simp [cursorLoop]
  | cons ev evs ih =>
    intro s hinv
    obtain ⟨e, now⟩ := ev
    rcases cursorStep_cases allowed s e now with ⟨hids, hflag, -, hint⟩ | ⟨hint, hcase⟩
    · simp only [cursorLoop]
      rw [ih _ (fun h => by rw [hids]; exact hinv (hflag ▸ h)), hflag]
      simp [hint]
    · rcases hcase with ⟨hmem, hstep⟩ | ⟨hmem, hids, hflag, name, args, hout⟩
      · have hflagtrue : s.hasIntercepted = true := by
          cases hf : s.hasIntercepted with
          | true => rfl
          | false => rw [hinv hf] at hmem; cases hmem
        simp only [cursorLoop, hstep]
        rw [ih _ hinv]
        simp [hflagtrue, hint]
      · simp only [cursorLoop]
        rw [ih _ (fun h => by rw [hflag] at h; cases h), hflag]
        simp [hint]

/-- **C9.** In the cursor adapter's streaming path: (1) for every call id
`c`, exactly one `ToolCall` part with id `c` is emitted when some
`tool_call` event resolves — via the de-camelCased key and the
case-insensitive alphanumeric-only comparison against the caller's tools —
to id `c` carrying `args`, and none otherwise (in particular, never more
than one per call id); and (2) the stream ends with a `Finish` whose
reason is `tool-calls` (the SDK encoding of canonical `tool_calls`) when
at least one tool call was intercepted, else `stop`. -/
theorem cursorDoStream_interception (allowed : List String)
    (events : List (CursorEvent × Nat)) (c : String) :
    ((cursorDoStream allowed events).countP (isToolCallPartWithId c) =
      if events.any (fun ev => intercepts allowed ev && (eventResolvedId ev == c)) = true
      then 1 else 0) ∧
    cursorDoStream allowed events =
      (cursorLoop allowed ⟨"", "", [], false⟩ events).2 ++
        [StreamPart.finish
          (if events.any (intercepts allowed) = true then .toolCalls else .stop)] := by
  constructor
  · show ((cursorLoop allowed ⟨"", "", [], false⟩ events).2 ++
      [StreamPart.finish _]).countP (isToolCallPartWithId c) = _
    rw [List.countP_append, cursorLoop_count allowed c events ⟨"", "", [], false⟩]
    have h2 : List.countP (isToolCallPartWithId c)
        [StreamPart.finish
          (if (cursorLoop allowed ⟨"", "", [], false⟩ events).1.hasIntercepted then
            FinishReason.toolCalls else FinishReason.stop)] = 0 := by
      simp [isToolCallPartWithId]
    rw [h2]
    exact if_congr (by simp) rfl rfl
  · show (cursorLoop allowed ⟨"", "", [], false⟩ events).2 ++ [StreamPart.finish _] = _
    have hflag := cursorLoop_flag allowed events ⟨"", "", [], false⟩ (fun _ => rfl)
    rw [hflag]
    exact congrArg (fun r => _ ++ [StreamPart.finish r]) (if_congr (by simp) rfl rfl)

/-! ## OAuth token refresh expiry arithmetic

`refreshQwenCliToken` (qwen-cli flow) stores
`Date.now() + expires_in * 1000 - 5 * 60 * 1000`;
`refreshGitHubCopilotToken` stores `expires_at * 1000 - 5 * 60 * 1000`
(the Copilot endpoint reports an absolute epoch-seconds expiry);
`refreshOpenAICodexToken` (`src/utils/oauth/openai-codex.ts` line 143)
stores `Date.now() + expires_in * 1000` — with no safety margin. -/

/-- Stored expiry computed by `refreshQwenCliToken` (qwen-cli flow,
line 210): `Date.now() + data.expires_in * 1000 - 5 * 60 * 1000`. -/
def qwenRefreshExpires (now expiresIn : Int) : Int :=
  now + expiresIn * 1000 - 5 * 60 * 1000

/-- Stored expiry computed by `refreshGitHubCopilotToken` (github-copilot
flow, line 188): `expires_at * 1000 - 5 * 60 * 1000`. -/
def copilotRefreshExpires (serverExpiresAtSec : Int) : Int :=
  serverExpiresAtSec * 1000 - 5 * 60 * 1000

/-- Stored expiry computed by `refreshOpenAICodexToken`
(`src/utils/oauth/openai-codex.ts` line 143):
`Date.now() + json.expires_in * 1000`. -/
def codexRefreshExpires (now expiresIn : Int) : Int :=
  now + expiresIn * 1000

/-- Modelled from the spec: "Stored `expiresAtEpochMs` is set to the
server-reported expiry minus a 5-minute safety margin." -/
def specRefreshExpires (serverExpiryMs : Int) : Int :=
  serverExpiryMs - 5 * 60 * 1000

/-- **C5 (counterexample).** The OpenAI Codex refresh stores the full
server expiry with no 5-minute margin: at `now = 0` with a one-hour
`expires_in = 3600`, it stores `3 600 000 ms`, not the
`3 300 000 ms` the claimed margin formula yields. -/
theorem codexRefresh_no_margin_counterexample :
    codexRefreshExpires 0 3600 = 3600000 ∧
    specRefreshExpires (0 + 3600 * 1000) = 3300000 ∧
    codexRefreshExpires 0 3600 ≠ specRefreshExpires (0 + 3600 * 1000) := by
  refine ⟨by decide, by decide, by decide⟩

/-- **C5 (amended).** The Qwen CLI and GitHub Copilot refreshes store the
server-reported expiry minus the 5-minute margin; the OpenAI Codex refresh
stores the server-reported expiry with no margin.  Consequently, after a
successful refresh the stored expiry exceeds `now + 4 min` provided the
server-reported token lifetime exceeds 9 minutes (Qwen/Copilot) or
4 minutes (Codex). -/
theorem refresh_expiry_margins (now expiresIn serverExpiresAtSec : Int)
    (hq : expiresIn * 1000 > 9 * 60 * 1000)
    (hc : serverExpiresAtSec * 1000 > now + 9 * 60 * 1000)
    (hx : expiresIn * 1000 > 4 * 60 * 1000) :
    qwenRefreshExpires now expiresIn = specRefreshExpires (now + expiresIn * 1000) ∧
    copilotRefreshExpires serverExpiresAtSec =
      specRefreshExpires (serverExpiresAtSec * 1000) ∧
    codexRefreshExpires now expiresIn = now + expiresIn * 1000 ∧
    qwenRefreshExpires now expiresIn > now + 4 * 60 * 1000 ∧
    copilotRefreshExpires serverExpiresAtSec > now + 4 * 60 * 1000 ∧
    codexRefreshExpires now expiresIn > now + 4 * 60 * 1000 := by
  unfold qwenRefreshExpires copilotRefreshExpires codexRefreshExpires specRefreshExpires
  omega

/-- Witness for `refresh_expiry_margins` at `now = 0`, a one-hour
`expires_in`, and a one-hour-out absolute expiry. -/
theorem refresh_expiry_margins_witness :
    ((3600 : Int) * 1000 > 9 * 60 * 1000 ∧
      (3600 : Int) * 1000 > 0 + 9 * 60 * 1000 ∧
      (3600 : Int) * 1000 > 4 * 60 * 1000) ∧
    qwenRefreshExpires 0 3600 > 0 + 4 * 60 * 1000 :=
  ⟨⟨by decide, by decide, by decide⟩,
    (refresh_expiry_margins 0 3600 3600 (by decide) (by decide) (by decide)).2.2.2.1⟩

/-! ## Device-code polling loops (qwen-cli `pollForToken`,
`pollForGitHubCopilotToken`)

Each loop iteration issues one token request; we model the run on the list
of successive server responses.  The result is the outcome together with
the trace of intervals slept (in ms).  An exhausted response list models
reaching the deadline. -/

/-- One polling response, as the loops inspect it: a body with
`access_token`, a body with `error`, an OK response with neither, or a
non-OK response with neither. -/
inductive PollResp where
  | tokenResp (accessToken : String)
  | errResp (error : String)
  | emptyOk
  | httpFail (status : Nat)
deriving Repr, DecidableEq

/-- `resolvedInterval` and `intervalMs` initialization of the qwen-cli
`pollForToken` (lines 107–111): a positive server-suggested interval in
seconds, else 2 s; floored to ms and clamped to at least 1000. -/
def qwenInitIntervalMs (intervalSeconds : Option Nat) : Nat :=
  let resolved :=
    match intervalSeconds with
    | some n => if n > 0 then n else 2
    | none => 2
  max 1000 (resolved * 1000)

/-- The qwen-cli `pollForToken` loop (lines 113–169): `access_token`
returns; `authorization_pending` sleeps and continues; `slow_down` sets
`intervalMs = Math.min(intervalMs + 5000, 10000)` then sleeps;
`expired_token`, `access_denied`, other errors and non-OK empty responses
are terminal; an OK response with neither field sleeps and continues. -/
def qwenPoll (intervalMs : Nat) : List PollResp → Except String String × List Nat
  | [] => (.error "Authentication timed out.", [])
  | r :: rs =>
    match r with
    | .tokenResp tok => (.ok tok, [])
    | .errResp e =>
      if e = "authorization_pending" then
        ((qwenPoll intervalMs rs).1, intervalMs :: (qwenPoll intervalMs rs).2)
      else if e = "slow_down" then
        ((qwenPoll (min (intervalMs + 5000) 10000) rs).1,
          min (intervalMs + 5000) 10000 ::
            (qwenPoll (min (intervalMs + 5000) 10000) rs).2)
      else if e = "expired_token" then
        (.error "Device code expired. Please restart authentication.", [])
      else if e = "access_denied" then
        (.error "Authorization denied by user.", [])
      else (.error ("Token request failed: " ++ e), [])
    | .emptyOk => ((qwenPoll intervalMs rs).1, intervalMs :: (qwenPoll intervalMs rs).2)
    | .httpFail status => (.error ("Token request failed: " ++ toString status), [])

/-- `intervalMs` initialization of `pollForGitHubCopilotToken` (line 117):
`Math.max(1000, Math.floor(interval * 1000))`. -/
def copilotInitIntervalMs (intervalSeconds : Nat) : Nat :=
  max 1000 (intervalSeconds * 1000)

/-- The `pollForGitHubCopilotToken` loop (lines 119–157): `access_token`
returns; `authorization_pending` sleeps and continues; `slow_down` does
`intervalMs += 5000` — with no cap — then sleeps; any other error is
terminal; a response with neither field sleeps and continues (`fetchJson`
throws on non-OK responses). -/
def copilotPoll (intervalMs : Nat) : List PollResp → Except String String × List Nat
  | [] => (.error "Device flow timed out", [])
  | r :: rs =>
    match r with
    | .tokenResp tok => (.ok tok, [])
    | .errResp e =>
      if e = "authorization_pending" then
        ((copilotPoll intervalMs rs).1, intervalMs :: (copilotPoll intervalMs rs).2)
      else if e = "slow_down" then
        ((copilotPoll (intervalMs + 5000) rs).1,
          (intervalMs + 5000) :: (copilotPoll (intervalMs + 5000) rs).2)
      else (.error ("Device flow failed: " ++ e), [])
    | .emptyOk => ((copilotPoll intervalMs rs).1, intervalMs :: (copilotPoll intervalMs rs).2)
    | .httpFail status => (.error (toString status), [])

/-- **C6 (counterexample).** The GitHub Copilot polling loop has no
interval cap: starting from a server-suggested 6-second interval, one
`slow_down` raises the interval to 11 000 ms — exceeding 10 seconds. -/
theorem copilot_interval_uncapped_counterexample :
    copilotInitIntervalMs 6 = 6000 ∧
    (copilotPoll 6000 [PollResp.errResp "slow_down",
      PollResp.tokenResp "gho_token"]).2 = [11000] ∧
    11000 > 10000 := by
  refine ⟨by decide, rfl, by decide⟩

/-- Every interval slept by the qwen-cli loop is at most
`max initialInterval 10000`. -/
theorem qwenPoll_interval_le (rs : List PollResp) :
    ∀ (init x : Nat), x ∈ (qwenPoll init rs).2 → x ≤ max init 10000 := by
  induction rs with
  | nil => intro init x hx; simp [qwenPoll] at hx
  | cons r rs ih =>
    intro init x hx
    cases r with
    | tokenResp tok => simp [qwenPoll] at hx
    | errResp e =>
      simp only [qwenPoll] at hx
      split_ifs at hx with h1 h2 h3 h4
      · rcases List.mem_cons.mp hx with rfl | hx'
        · exact le_max_left _ _
        · exact ih init x hx'
      · rcases List.mem_cons.mp hx with rfl | hx'
        · exact le_trans (min_le_right _ _) (le_max_right _ _)
        · calc x ≤ max (min (init + 5000) 10000) 10000 :=
              ih (min (init + 5000) 10000) x hx'
            _ = 10000 := max_eq_right (min_le_right _ _)
            _ ≤ max init 10000 := le_max_right _ _
      · simp at hx
      · simp at hx
      · simp at hx
    | emptyOk =>
      simp only [qwenPoll] at hx
      rcases List.mem_cons.mp hx with rfl | hx'
      · exact le_max_left _ _
      · exact ih init x hx'
    | httpFail status => simp [qwenPoll] at hx

/-- **C6 (amended).** Receiving `slow_down` raises the qwen-cli interval to
`min(current + 5 s, 10 s)` — so it adds 5 seconds only while the result
stays within the 10-second cap, and every interval the qwen loop sleeps is
at most `max(initial, 10 s)`; the GitHub Copilot loop adds 5 seconds with
no cap, so its interval can exceed 10 seconds. -/
theorem poll_slow_down_behaviour (init i : Nat) (rs : List PollResp) (x : Nat)
    (hx : x ∈ (qwenPoll init rs).2) :
    x ≤ max init 10000 ∧
    qwenPoll i (PollResp.errResp "slow_down" :: rs) =
      ((qwenPoll (min (i + 5000) 10000) rs).1,
        min (i + 5000) 10000 :: (qwenPoll (min (i + 5000) 10000) rs).2) ∧
    copilotPoll i (PollResp.errResp "slow_down" :: rs) =
      ((copilotPoll (i + 5000) rs).1,
        (i + 5000) :: (copilotPoll (i + 5000) rs).2) := by
  refine ⟨qwenPoll_interval_le rs init x hx, ?_, ?_⟩
  · simp only [qwenPoll]
    rw [if_neg (by decide)]
    simp
  · simp only [copilotPoll]
    rw [if_neg (by decide)]
    simp

/-- Witness for `poll_slow_down_behaviour`: a concrete qwen run whose only
slept interval is the capped 10 000 ms. -/
theorem poll_slow_down_behaviour_witness :
    (10000 : Nat) ∈ (qwenPoll 8000 [PollResp.errResp "slow_down",
      PollResp.tokenResp "qwen_token"]).2 ∧
    (10000 : Nat) ≤ max 8000 10000 :=
  ⟨by decide,
    (poll_slow_down_behaviour 8000 8000
      [PollResp.errResp "slow_down", PollResp.tokenResp "qwen_token"] 10000
      (by decide)).1⟩
